import Mathlib

/-!
Shallow embedding of the email-validation service (Express/TypeScript).

Strings are modelled as `List Char` (the sequence of UTF-16-ish code
points of a JS string), JSON request-body values as the inductive
`JsValue`, and each route handler as a pure function from its request
body to the response it serializes.
-/

/-- The JavaScript regular-expression whitespace class `\s`:
space, tab, LF, vertical tab, form feed, CR, NBSP, Ogham space mark,
the U+2000–U+200A spaces, line/paragraph separators, narrow NBSP,
medium mathematical space, ideographic space and the BOM. -/
def isJsSpace (c : Char) : Bool :=
  c == ' ' || c == '\t' || c == '\n' || c == '\u000b' || c == '\u000c' ||
  c == '\r' || c == '\u00a0' || c == '\u1680' ||
  (0x2000 ≤ c.val && c.val ≤ 0x200a) ||
  c == '\u2028' || c == '\u2029' || c == '\u202f' || c == '\u205f' ||
  c == '\u3000' || c == '\ufeff'

/-- A character matched by the class `[^\s@]` of the source regex
`/^[^\s@]+@[^\s@]+\.[^\s@]+$/`: not JS whitespace and not `@`. -/
def isAtomChar (c : Char) : Bool :=
  !(isJsSpace c) && c != '@'

/-- Splits a character list at the first occurrence of `c`:
`splitFirst c s = some (l, r)` when `s = l ++ c :: r` with `c ∉ l`,
and `none` when `c` does not occur in `s`. -/
def splitFirst (c : Char) : List Char → Option (List Char × List Char)
  | [] => none
  | x :: xs =>
    if x = c then some ([], xs)
    else
      match splitFirst c xs with
      | some (l, r) => some (x :: l, r)
      | none => none

/-- `dotBeforeEnd t = true` iff `t` contains a `'.'` at some position
other than its last position. -/
def dotBeforeEnd : List Char → Bool
  | [] => false
  | [_] => false
  | c :: rest => c == '.' || dotBeforeEnd rest

/-- `domainHasInteriorDot d = true` iff `d` contains a `'.'` at a
position that is neither its first nor its last position, i.e. iff
`d = m ++ '.' :: r` for some non-empty `m` and `r`. -/
def domainHasInteriorDot : List Char → Bool
  | [] => false
  | _ :: t => dotBeforeEnd t

/-- The test of the source's regular expression
`/^[^\s@]+@[^\s@]+\.[^\s@]+$/` (`emailRegex.test(email)`), from
`src/unnamed/part_000`.  All three character classes are `[^\s@]`, so
they exclude `@`; hence a match decomposes the string at its first
(and only) `@` into `l ++ '@' :: d`, with `l` a non-empty run of class
characters matching `[^\s@]+`, and `d` matching `[^\s@]+\.[^\s@]+`.
Because `'.'` itself lies in the class `[^\s@]`, `d` matches
`[^\s@]+\.[^\s@]+` exactly when every character of `d` is in the class
and some `'.'` of `d` is neither its first nor its last character. -/
def emailRegexTest (s : List Char) : Bool :=
  match splitFirst '@' s with
  | some (l, d) =>
    !l.isEmpty && l.all isAtomChar && d.all isAtomChar && domainHasInteriorDot d
  | none => false

/-- The language of the regex `/^[^\s@]+@[^\s@]+\.[^\s@]+$/`,
transcribed literally: the whole string is a non-empty run of
`[^\s@]` characters, then `'@'`, then a non-empty run of `[^\s@]`
characters, then `'.'`, then a non-empty run of `[^\s@]` characters. -/
def emailRegexLang (s : List Char) : Prop :=
  ∃ l m r : List Char,
    s = l ++ '@' :: (m ++ '.' :: r) ∧
    l ≠ [] ∧ m ≠ [] ∧ r ≠ [] ∧
    (∀ c ∈ l, isAtomChar c = true) ∧
    (∀ c ∈ m, isAtomChar c = true) ∧
    (∀ c ∈ r, isAtomChar c = true)

/-- A JSON value as it can appear in a parsed Express request body:
a string, a number (integral numbers suffice for this development),
a boolean, `null`, or an array.  A missing field is modelled as
`Option.none` at the use site (JS `undefined`). -/
inductive JsValue where
  | vstr (s : List Char)
  | vnum (n : Int)
  | vbool (b : Bool)
  | vnull
  | varr (xs : List JsValue)

/-- JavaScript truthiness of a `JsValue`: `""`, `0`, `false` and
`null` are falsy; every other modelled value — in particular every
array, including `[]` — is truthy. -/
def truthy : JsValue → Bool
  | .vstr s => !s.isEmpty
  | .vnum n => n != 0
  | .vbool b => b
  | .vnull => false
  | .varr _ => true

/-- JS truthiness of a possibly-missing body field: a missing field
(`undefined`) is falsy. -/
def truthyOpt : Option JsValue → Bool
  | some v => truthy v
  | none => false

/-- `Array.isArray`. -/
def isJsArray : JsValue → Bool
  | .varr _ => true
  | _ => false

mutual

/-- JavaScript `String(v)` coercion, as applied by
`RegExp.prototype.test` to a non-string argument: numbers print in
decimal, booleans as `true`/`false`, `null` as `"null"`, and an array
as its elements joined with `','` (with `null` elements contributing
the empty string, per `Array.prototype.join`). -/
def jsToString : JsValue → List Char
  | .vstr s => s
  | .vnum n => (toString n).data
  | .vbool b => if b then "true".data else "false".data
  | .vnull => "null".data
  | .varr xs => jsJoinList xs

/-- `Array.prototype.join` with separator `','` over modelled values. -/
def jsJoinList : List JsValue → List Char
  | [] => []
  | [v] => jsJoinElem v
  | v :: w :: vs => jsJoinElem v ++ ',' :: jsJoinList (w :: vs)

/-- One element under `Array.prototype.join`: `null` becomes empty. -/
def jsJoinElem : JsValue → List Char
  | .vnull => []
  | v => jsToString v

end

/-- The body the `/validate` handler serializes on success
(`src/unnamed/part_000`).  `checksSyntaxValid` is the nested
`checks.syntax.valid` field; the `metadata.timestamp` wall-clock
string is outside the pure model and omitted;
`processing_time_ms` is the constant `10` of the source. -/
structure ValidationResult where
  email : JsValue
  valid : Bool
  quality_score : ℚ
  checksSyntaxValid : Bool
  processing_time_ms : Nat
  note : List Char

/-- One element of the `/batch` response's `results` array
(`src/unnamed/part_000`): like `ValidationResult` but with no
metadata or note fields. -/
structure BatchItem where
  email : JsValue
  valid : Bool
  quality_score : ℚ
  checksSyntaxValid : Bool

/-- The `/batch` response body (`src/unnamed/part_000`). -/
structure BatchResult where
  results : List BatchItem
  total : Nat
  valid_count : Nat
  processing_time_ms : Nat

/-- An HTTP response as a route handler builds it: either a 200 with
a JSON body of type `α` (`res.json(...)`), or an error status with an
`{error, message}` body (`res.status(_).json({error, message})`). -/
inductive ApiResponse (α : Type) where
  | ok (body : α)
  | err (status : Nat) (error : List Char) (message : List Char)

/-- The `ValidationResult` the `/validate` handler builds from a
truthy `email` body field: `isValid = emailRegex.test(email)` (with
JS string coercion for non-string values), `quality_score` is `0.8`
or `0`, and `checks.syntax.valid` repeats `isValid`. -/
def validationResultOf (v : JsValue) : ValidationResult :=
  { email := v
  , valid := emailRegexTest (jsToString v)
  , quality_score := if emailRegexTest (jsToString v) then 0.8 else 0
  , checksSyntaxValid := emailRegexTest (jsToString v)
  , processing_time_ms := 10
  , note := "Simplified validation - full features coming soon!".data }

/-- The `POST /validate` handler (`src/unnamed/part_000`): if the
`email` body field is absent or falsy (`if (!email)`), respond
400 `{error: VALIDATION_ERROR, message: Email is required}`;
otherwise respond 200 with the `ValidationResult`. -/
def validateEndpoint : Option JsValue → ApiResponse ValidationResult
  | some v =>
    if truthy v then .ok (validationResultOf v)
    else .err 400 "VALIDATION_ERROR".data "Email is required".data
  | none => .err 400 "VALIDATION_ERROR".data "Email is required".data

/-- One element of `emails.map(...)` in the `/batch` handler: the
source evaluates `emailRegex.test(email)` three separate times, once
for each of `valid`, `quality_score` and `checks.syntax.valid`. -/
def batchItemOf (v : JsValue) : BatchItem :=
  { email := v
  , valid := emailRegexTest (jsToString v)
  , quality_score := if emailRegexTest (jsToString v) then 0.8 else 0
  , checksSyntaxValid := emailRegexTest (jsToString v) }

/-- The `/batch` response for an accepted array: `results` maps the
syntax test over the entries in order, `total = emails.length`,
`valid_count = results.filter(r => r.valid).length`, and
`processing_time_ms` is the constant `50`. -/
def batchResultOf (xs : List JsValue) : BatchResult :=
  { results := xs.map batchItemOf
  , total := xs.length
  , valid_count := ((xs.map batchItemOf).filter (fun r => r.valid)).length
  , processing_time_ms := 50 }

/-- The `POST /batch` handler (`src/unnamed/part_000`): if the
`emails` body field is absent, falsy, or not an array
(`if (!emails || !Array.isArray(emails))`), respond 400
`{error: VALIDATION_ERROR, message: Emails array is required}`;
otherwise respond 200 with the `BatchResult`. -/
def batchEndpoint : Option JsValue → ApiResponse BatchResult
  | some v =>
    if truthy v then
      match v with
      | .varr xs => .ok (batchResultOf xs)
      | _ => .err 400 "VALIDATION_ERROR".data "Emails array is required".data
    else .err 400 "VALIDATION_ERROR".data "Emails array is required".data
  | none => .err 400 "VALIDATION_ERROR".data "Emails array is required".data

/-- JavaScript `String.prototype.split` with a one-character
separator: `jsSplit c s` is the list of the (possibly empty) segments
of `s` between occurrences of `c`.  Like JS, splitting the empty
string yields `[""]`, and leading/trailing/adjacent separators yield
empty segments. -/
def jsSplit (c : Char) : List Char → List (List Char)
  | [] => [[]]
  | x :: xs =>
    match jsSplit c xs with
    | h :: t => if x = c then [] :: h :: t else (x :: h) :: t
    | [] => if x = c then [[], []] else [[x]]

/-- The fixed list of the disposable-domain utility
(`src/unnamed/part_001`). -/
def disposableDomains : List (List Char) :=
  [ "tempmail.com".data
  , "guerrillamail.com".data
  , "10minutemail.com".data
  , "throwaway.email".data ]

/-- `String.prototype.toLowerCase` restricted to the ASCII mapping
`A`–`Z` ↦ `a`–`z` (`Char.toLower`); every domain in
`disposableDomains` is lower-case ASCII and none contains `k` or `i`
followed by a combining mark, so the non-ASCII lowerings of full
Unicode case mapping cannot create a new member of the list. -/
def jsToLower (s : List Char) : List Char :=
  s.map Char.toLower

/-- `isDisposable` from `src/unnamed/part_001`:
`email.split('@')[1]?.toLowerCase()` is tested for membership in
`disposableDomains` (`includes(undefined)` is `false` when there is
no element of index 1). -/
def isDisposable (email : List Char) : Bool :=
  match (jsSplit '@' email)[1]? with
  | some d => disposableDomains.contains (jsToLower d)
  | none => false

/-- An error object as the error-handling middleware reads it
(`src/src/middleware/errorHandler.ts` takes `err: any`): possibly
absent numeric `statusCode` and `status` fields, possibly absent
string `name` and `message` fields, and a `stack` string. -/
structure JsError where
  statusCode : Option Int
  status : Option Int
  name : Option (List Char)
  message : Option (List Char)
  stack : List Char

/-- JS `a || d` for a possibly-absent number `a`: keeps `a` when it
is present and truthy (non-zero), else falls through to `d`. -/
def jsOrNum (a : Option Int) (d : Int) : Int :=
  match a with
  | some n => if n = 0 then d else n
  | none => d

/-- JS `a || d` for a possibly-absent string `a`: keeps `a` when it
is present and truthy (non-empty), else falls through to `d`. -/
def jsOrStr (a : Option (List Char)) (d : List Char) : List Char :=
  match a with
  | some s => if s.isEmpty then d else s
  | none => d

/-- The response the error-handler middleware sends: status, the
`error` and `message` body fields, and the `stack` body field, which
is present only when the conditional spread
`...(NODE_ENV === 'development' && { stack })` fires. -/
structure ErrorResponse where
  status : Int
  error : List Char
  message : List Char
  stack : Option (List Char)

/-- The `errorHandler` middleware (`src/src/middleware/errorHandler.ts`),
as a function of `process.env.NODE_ENV` and the caught error:
status `err.statusCode || err.status || 500`, body
`{error: err.name || INTERNAL_SERVER_ERROR,
message: err.message || An unexpected error occurred}`, plus the
`stack` field exactly when `NODE_ENV === 'development'`.  (The
logging call is observational and outside the model.) -/
def errorHandler (env : List Char) (e : JsError) : ErrorResponse :=
  { status := jsOrNum e.statusCode (jsOrNum e.status 500)
  , error := jsOrStr e.name "INTERNAL_SERVER_ERROR".data
  , message := jsOrStr e.message "An unexpected error occurred".data
  , stack := if env = "development".data then some e.stack else none }

/-- The pattern of claim C1, read off the spec's words: exactly one
`@`, no whitespace anywhere, and the part after the `@` (the domain)
contains at least one `.`. -/
def c1Pattern (s : List Char) : Bool :=
  (s.count '@' == 1) && s.all (fun c => !isJsSpace c) &&
    (match splitFirst '@' s with
     | some (_, d) => d.contains '.'
     | none => false)

/-- The amended pattern for claim C1: exactly one `@`, no whitespace
anywhere, a non-empty local part before the `@`, and the part after
the `@` (the domain) contains a `.` that is neither the domain's
first nor its last character. -/
def c1AmendedPattern (s : List Char) : Bool :=
  (s.count '@' == 1) && s.all (fun c => !isJsSpace c) &&
    (match splitFirst '@' s with
     | some (l, d) => !l.isEmpty && domainHasInteriorDot d
     | none => false)

/-- The segment of the input between its first `@` and its second `@`
(or its end when there is no second `@`); `none` when the input has
no `@` at all.  This is what `split('@')[1]` denotes. -/
def secondSegment (s : List Char) : Option (List Char) :=
  match splitFirst '@' s with
  | none => none
  | some (_, r) =>
    match splitFirst '@' r with
    | none => some r
    | some (m, _) => some m

/-- A possibly-absent number narrowed to its JS-truthy values: `some`
only when present and non-zero. -/
def truthyNum (a : Option Int) : Option Int :=
  match a with
  | some n => if n = 0 then none else some n
  | none => none

/-- A possibly-absent string narrowed to its JS-truthy values: `some`
only when present and non-empty. -/
def truthyStr (a : Option (List Char)) : Option (List Char) :=
  match a with
  | some s => if s.isEmpty then none else some s
  | none => none

/-- The status code an error declares, in the sense of the claim:
the first of its `statusCode` and `status` fields that is present
(and truthy, as the source's `||` chain reads presence). -/
def declaredStatus (e : JsError) : Option Int :=
  (truthyNum e.statusCode).orElse (fun _ => truthyNum e.status)

/-- The name an error makes available, in the sense of the claim:
its `name` field when present and non-empty. -/
def givenName (e : JsError) : Option (List Char) :=
  truthyStr e.name

/-- The single-evaluation variant of a batch element, from the spec's
refinement note: compute the regular-expression test once per entry
and reuse the boolean for `valid`, `quality_score` and
`checks.syntax.valid`. -/
def batchItemOnce (v : JsValue) : BatchItem :=
  let b := emailRegexTest (jsToString v)
  { email := v
  , valid := b
  , quality_score := if b then 0.8 else 0
  , checksSyntaxValid := b }

/-- The `/batch` response computed with the single-evaluation
variant. -/
def batchResultOnce (xs : List JsValue) : BatchResult :=
  { results := xs.map batchItemOnce
  , total := xs.length
  , valid_count := ((xs.map batchItemOnce).filter (fun r => r.valid)).length
  , processing_time_ms := 50 }

example : emailRegexTest "a@b.com".data = true := by decide

example : emailRegexTest "not-an-email".data = false := by decide

example : emailRegexTest "a@b".data = false := by decide

example : emailRegexTest "a@b.".data = false := by decide

example : emailRegexTest "@b.com".data = false := by decide

example : emailRegexTest "a@.com".data = false := by decide

example : emailRegexTest "a@b.c.d".data = true := by decide

example : emailRegexTest "a b@c.d".data = false := by decide

example : emailRegexTest "a@b@c.d".data = false := by decide

/-- `String(v)` of a string value is the string itself (the handlers
below apply the regex only after this coercion, so this is the case
every string-valued claim goes through). -/
@[simp]
theorem jsToString_vstr (s : List Char) : jsToString (.vstr s) = s := by
  simp [jsToString]

example : (validationResultOf (.vstr "a@b.com".data)).valid = true := by
  simp only [validationResultOf, jsToString_vstr]
  decide

example : (validationResultOf (.vstr "a@b".data)).valid = false := by
  simp only [validationResultOf, jsToString_vstr]
  decide

example : validateEndpoint (some (.vstr [])) =
    .err 400 "VALIDATION_ERROR".data "Email is required".data := rfl

example : batchEndpoint (some (.varr [])) =
    .ok { results := [], total := 0, valid_count := 0, processing_time_ms := 50 } := rfl

example : batchEndpoint (some (.vstr "not-an-array".data)) =
    .err 400 "VALIDATION_ERROR".data "Emails array is required".data := rfl

example : jsSplit '@' "a@b".data = ["a".data, "b".data] := by decide

example : jsSplit '@' "a@b@c".data = ["a".data, "b".data, "c".data] := by decide

example : jsSplit '@' "abc".data = ["abc".data] := by decide

example : jsSplit '@' [] = [[]] := by decide

example : jsSplit '@' "@b".data = [[], "b".data] := by decide

example : jsSplit '@' "a@".data = ["a".data, []] := by decide

example : isDisposable "a@tempmail.com".data = true := by decide

example : isDisposable "a@TempMail.COM".data = true := by decide

example : isDisposable "a@gmail.com".data = false := by decide

example : isDisposable "nodomain".data = false := by decide

example : isDisposable "a@tempmail.com@b".data = true := by decide

theorem splitFirst_eq_none_iff (c : Char) (s : List Char) :
    splitFirst c s = none ↔ c ∉ s := by
  induction s with
  | nil => simp [splitFirst]
  | cons x xs ih =>
    by_cases hx : x = c
    · subst hx
      simp [splitFirst]
    · cases h : splitFirst c xs with
      | none =>
        have hnot : c ∉ xs := ih.mp h
        simp [splitFirst, hx, h, List.mem_cons, hnot]
        exact fun hcx => absurd hcx.symm hx
      | some p =>
        have hmem : c ∈ xs := by
          by_contra hc
          rw [← ih] at hc
          simp [h] at hc
        simp [splitFirst, hx, h, List.mem_cons, hmem]

theorem splitFirst_some (c : Char) (s l r : List Char)
    (h : splitFirst c s = some (l, r)) : s = l ++ c :: r ∧ c ∉ l := by
  induction s generalizing l with
  | nil => simp [splitFirst] at h
  | cons x xs ih =>
    by_cases hx : x = c
    · subst hx
      simp [splitFirst] at h
      obtain ⟨rfl, rfl⟩ := h
      simp
    · simp only [splitFirst, if_neg hx] at h
      cases h' : splitFirst c xs with
      | none => simp [h'] at h
      | some p =>
        obtain ⟨l₀, r₀⟩ := p
        simp [h'] at h
        obtain ⟨rfl, rfl⟩ := h
        obtain ⟨hs, hl⟩ := ih l₀ h'
        subst hs
        refine ⟨rfl, ?_⟩
        simp [List.mem_cons, hl]
        exact fun hcx => absurd hcx.symm hx

theorem dotBeforeEnd_iff (t : List Char) :
    dotBeforeEnd t = true ↔ ∃ m r : List Char, t = m ++ '.' :: r ∧ r ≠ [] := by
  induction t with
  | nil => simp [dotBeforeEnd]
  | cons c rest ih =>
    cases rest with
    | nil =>
      simp [dotBeforeEnd]
      intro m r he
      have hlen := congrArg List.length he
      simp at hlen
      exact List.length_eq_zero.mp (by omega)
    | cons d rest2 =>
      rw [show dotBeforeEnd (c :: d :: rest2) = (c == '.' || dotBeforeEnd (d :: rest2))
            from rfl]
      simp only [Bool.or_eq_true, beq_iff_eq, ih]
      constructor
      · rintro (rfl | ⟨m, r, he, hr⟩)
        · exact ⟨[], d :: rest2, rfl, by simp⟩
        · exact ⟨c :: m, r, by simp [he], hr⟩
      · rintro ⟨m, r, he, hr⟩
        cases m with
        | nil =>
          simp at he
          exact Or.inl he.1
        | cons y m' =>
          simp at he
          exact Or.inr ⟨m', r, he.2, hr⟩

theorem domainHasInteriorDot_iff (d : List Char) :
    domainHasInteriorDot d = true ↔
      ∃ m r : List Char, d = m ++ '.' :: r ∧ m ≠ [] ∧ r ≠ [] := by
  cases d with
  | nil => simp [domainHasInteriorDot]
  | cons x t =>
    rw [show domainHasInteriorDot (x :: t) = dotBeforeEnd t from rfl, dotBeforeEnd_iff]
    constructor
    · rintro ⟨m, r, rfl, hr⟩
      exact ⟨x :: m, r, by simp, by simp, hr⟩
    · rintro ⟨m, r, he, hm, hr⟩
      cases m with
      | nil => exact absurd rfl hm
      | cons y m' =>
        simp at he
        exact ⟨m', r, he.2, hr⟩

theorem splitFirst_append (c : Char) (l r : List Char) (hl : c ∉ l) :
    splitFirst c (l ++ c :: r) = some (l, r) := by
  induction l with
  | nil => simp [splitFirst]
  | cons x t ih =>
    have hx : ¬(x = c) := fun h => hl (h ▸ List.mem_cons_self x t)
    have ht : c ∉ t := fun h => hl (List.mem_cons_of_mem _ h)
    simp [splitFirst, hx, ih ht]

/-- The executable `emailRegexTest` accepts exactly the language of
the regular expression `/^[^\s@]+@[^\s@]+\.[^\s@]+$/` as transcribed
literally in `emailRegexLang`. -/
theorem emailRegexTest_iff_lang (s : List Char) :
    emailRegexTest s = true ↔ emailRegexLang s := by
  unfold emailRegexLang
  cases h : splitFirst '@' s with
  | none =>
    have hno : '@' ∉ s := (splitFirst_eq_none_iff '@' s).mp h
    simp only [emailRegexTest, h, Bool.false_eq_true, false_iff, not_exists]
    intro l m r hcon
    rw [hcon.1] at hno
    exact hno (by simp)
  | some p =>
    obtain ⟨l, d⟩ := p
    obtain ⟨hs, hl⟩ := splitFirst_some '@' s l d h
    subst hs
    simp only [emailRegexTest, h, Bool.and_eq_true, Bool.not_eq_true',
      List.isEmpty_eq_false, List.all_eq_true]
    constructor
    · rintro ⟨⟨⟨hne, hal⟩, had⟩, hdot⟩
      obtain ⟨m, r, rfl, hm, hr⟩ := (domainHasInteriorDot_iff d).mp hdot
      refine ⟨l, m, r, rfl, hne, hm, hr, hal, ?_, ?_⟩
      · exact fun c hc => had c (by simp [hc])
      · exact fun c hc => had c (by simp [hc])
    · rintro ⟨l₂, m, r, heq, hl₂, hm, hr, hal, ham, har⟩
      have hnotl₂ : '@' ∉ l₂ := fun hmem => by
        have := hal '@' hmem
        simp [isAtomChar] at this
      have h₂ : splitFirst '@' (l₂ ++ '@' :: (m ++ '.' :: r)) =
          some (l₂, m ++ '.' :: r) := splitFirst_append '@' l₂ _ hnotl₂
      rw [heq] at h
      rw [h₂] at h
      have hpair := Option.some.inj h
      have hfst : l₂ = l := congrArg Prod.fst hpair
      have hsnd : m ++ '.' :: r = d := congrArg Prod.snd hpair
      subst hfst
      subst hsnd
      refine ⟨⟨⟨hl₂, hal⟩, ?_⟩, ?_⟩
      · intro c hc
        rcases List.mem_append.mp hc with hc | hc
        · exact ham c hc
        · rcases List.mem_cons.mp hc with rfl | hc
          · decide
          · exact har c hc
      · exact (domainHasInteriorDot_iff _).mpr ⟨m, r, rfl, hm, hr⟩

example : c1Pattern "a@b.com".data = true := by decide

example : c1Pattern "a@b.".data = true := by decide

example : c1Pattern "@b.com".data = true := by decide

example : c1Pattern "a@b".data = false := by decide

example : c1Pattern "not-an-email".data = false := by decide

example : c1AmendedPattern "a@b.com".data = true := by decide

example : c1AmendedPattern "a@b.".data = false := by decide

example : c1AmendedPattern "@b.com".data = false := by decide

theorem emailRegexTest_eq_c1AmendedPattern (s : List Char) :
    emailRegexTest s = c1AmendedPattern s := by
  cases h : splitFirst '@' s with
  | none =>
    simp [emailRegexTest, c1AmendedPattern, h]
  | some p =>
    obtain ⟨l, d⟩ := p
    obtain ⟨hs, hl⟩ := splitFirst_some '@' s l d h
    subst hs
    have hcnt : ((l ++ '@' :: d).count '@' = 1) ↔ '@' ∉ d := by
      rw [List.count_append, List.count_cons_self, List.count_eq_zero.mpr hl,
        ← List.count_eq_zero]
      omega
    rw [Bool.eq_iff_iff]
    simp only [emailRegexTest, c1AmendedPattern, h, Bool.and_eq_true,
      List.isEmpty_eq_false, List.all_eq_true, beq_iff_eq, hcnt,
      List.mem_append, List.mem_cons, Bool.not_eq_true']
    constructor
    · rintro ⟨⟨⟨hne, hal⟩, had⟩, hdot⟩
      have hld : '@' ∉ d := fun hc => by
        have := had '@' hc
        simp [isAtomChar] at this
      refine ⟨⟨hld, ?_⟩, hne, hdot⟩
      rintro c (hc | rfl | hc)
      · have := hal c hc
        simp [isAtomChar] at this
        exact this.1
      · decide
      · have := had c hc
        simp [isAtomChar] at this
        exact this.1
    · rintro ⟨⟨hld, hws⟩, hne, hdot⟩
      refine ⟨⟨⟨hne, ?_⟩, ?_⟩, hdot⟩
      · intro c hc
        simp only [isAtomChar, Bool.and_eq_true, Bool.not_eq_true', bne_iff_ne]
        exact ⟨hws c (Or.inl hc), fun hcc => hl (hcc ▸ hc)⟩
      · intro c hc
        simp only [isAtomChar, Bool.and_eq_true, Bool.not_eq_true', bne_iff_ne]
        exact ⟨hws c (Or.inr (Or.inr hc)), fun hcc => hld (hcc ▸ hc)⟩

theorem jsSplit_ne_nil (c : Char) (s : List Char) : jsSplit c s ≠ [] := by
  cases s with
  | nil => simp [jsSplit]
  | cons x xs =>
    cases h : jsSplit c xs with
    | nil => simp [jsSplit, h]; split <;> simp
    | cons hd tl => simp [jsSplit, h]; split <;> simp

theorem jsSplit_eq (c : Char) (s : List Char) :
    jsSplit c s =
      match splitFirst c s with
      | none => [s]
      | some (l, r) => l :: jsSplit c r := by
  induction s with
  | nil => simp [jsSplit, splitFirst]
  | cons x xs ih =>
    by_cases hx : x = c
    · cases h : jsSplit c xs with
      | nil => exact absurd h (jsSplit_ne_nil c xs)
      | cons hd tl =>
        simp [jsSplit, splitFirst, hx, h]
    · cases h' : splitFirst c xs with
      | none =>
        rw [h'] at ih
        simp [jsSplit, splitFirst, hx, ih, h']
      | some p =>
        obtain ⟨l, r⟩ := p
        rw [h'] at ih
        simp [jsSplit, splitFirst, hx, ih, h']

theorem jsSplit_getElem_one (s : List Char) :
    (jsSplit '@' s)[1]? = secondSegment s := by
  rw [jsSplit_eq]
  cases h : splitFirst '@' s with
  | none => simp [secondSegment, h]
  | some p =>
    obtain ⟨l, r⟩ := p
    show (l :: jsSplit '@' r)[1]? = secondSegment s
    rw [jsSplit_eq]
    cases h' : splitFirst '@' r with
    | none =>
      show (l :: [r])[1]? = secondSegment s
      simp [secondSegment, h, h']
    | some q =>
      obtain ⟨m, r'⟩ := q
      show (l :: m :: jsSplit '@' r')[1]? = secondSegment s
      simp [secondSegment, h, h']

/-- C1 (counterexample): the string `"a@b."` contains exactly one
`@`, no whitespace, and its domain part `"b."` contains a `.`, yet
`/validate` returns `valid == false` for it — refuting the claim that
every such string gets `valid == true`. -/
theorem c1_counterexample :
    c1Pattern "a@b.".data = true ∧
    validateEndpoint (some (.vstr "a@b.".data)) =
      .ok (validationResultOf (.vstr "a@b.".data)) ∧
    (validationResultOf (.vstr "a@b.".data)).valid = false := by
  refine ⟨by decide, rfl, ?_⟩
  simp only [validationResultOf, jsToString_vstr]
  decide

/-- C1 (amended): for every non-empty input string, `/validate`
returns a `ValidationResult` whose `valid` is `true` exactly when the
string has exactly one `@`, no whitespace, a non-empty local part
before the `@`, and a domain containing a `.` that is neither the
domain's first nor its last character. -/
theorem c1_amended (s : List Char) (h : s ≠ []) :
    validateEndpoint (some (.vstr s)) = .ok (validationResultOf (.vstr s)) ∧
    ((validationResultOf (.vstr s)).valid = true ↔ c1AmendedPattern s = true) := by
  constructor
  · simp [validateEndpoint, truthy, h]
  · simp only [validationResultOf, jsToString_vstr]
    rw [emailRegexTest_eq_c1AmendedPattern]

/-- C1 (witness): the amended statement applied to `"a@b.com"`. -/
theorem c1_amended_witness :
    "a@b.com".data ≠ [] ∧
    (validateEndpoint (some (.vstr "a@b.com".data)) =
       .ok (validationResultOf (.vstr "a@b.com".data)) ∧
     ((validationResultOf (.vstr "a@b.com".data)).valid = true ↔
        c1AmendedPattern "a@b.com".data = true)) :=
  ⟨by decide, c1_amended "a@b.com".data (by decide)⟩

/-- C2: in every `ValidationResult` built by `/validate` and every
element built by `/batch`, `valid ⇔ quality_score == 0.8`,
`valid == false ⇔ quality_score == 0`, and
`checks.syntax.valid == valid`. -/
theorem c2_invariant (v : JsValue) :
    ((validationResultOf v).valid = true ↔
       (validationResultOf v).quality_score = 0.8) ∧
    ((validationResultOf v).valid = false ↔
       (validationResultOf v).quality_score = 0) ∧
    (validationResultOf v).checksSyntaxValid = (validationResultOf v).valid ∧
    ((validationResultOf v).quality_score = 0.8 ↔
       (validationResultOf v).checksSyntaxValid = true) ∧
    ((batchItemOf v).valid = true ↔ (batchItemOf v).quality_score = 0.8) ∧
    ((batchItemOf v).valid = false ↔ (batchItemOf v).quality_score = 0) ∧
    (batchItemOf v).checksSyntaxValid = (batchItemOf v).valid ∧
    ((batchItemOf v).quality_score = 0.8 ↔
       (batchItemOf v).checksSyntaxValid = true) := by
  cases hb : emailRegexTest (jsToString v) <;>
    simp [validationResultOf, batchItemOf, hb] <;> norm_num

/-- C4: `POST /validate` with no `email` field responds 400 with
`{error: VALIDATION_ERROR, message: Email is required}` and never
with a `ValidationResult`. -/
theorem c4_missing_email :
    validateEndpoint none =
      .err 400 "VALIDATION_ERROR".data "Email is required".data ∧
    ∀ r : ValidationResult, validateEndpoint none ≠ .ok r := by
  refine ⟨rfl, fun r h => ?_⟩
  simp [validateEndpoint] at h

/-- C9: `POST /validate` treats a present-but-falsy `email` — the
empty string, `0`, `false`, or `null` — exactly like a missing field:
400 with `{error: VALIDATION_ERROR, message: Email is required}`,
never a `ValidationResult` with `valid == false`. -/
theorem c9_falsy_email_like_missing :
    validateEndpoint (some (.vstr [])) =
      .err 400 "VALIDATION_ERROR".data "Email is required".data ∧
    validateEndpoint (some (.vnum 0)) =
      .err 400 "VALIDATION_ERROR".data "Email is required".data ∧
    validateEndpoint (some (.vbool false)) =
      .err 400 "VALIDATION_ERROR".data "Email is required".data ∧
    validateEndpoint (some .vnull) =
      .err 400 "VALIDATION_ERROR".data "Email is required".data ∧
    validateEndpoint (some (.vnum 0)) = validateEndpoint none := by
  refine ⟨rfl, rfl, rfl, rfl, rfl⟩

/-- C10: `POST /batch` with `emails == []` is accepted: 200 with
`results == []`, `total == 0` and `valid_count == 0`. -/
theorem c10_empty_batch :
    batchEndpoint (some (.varr [])) =
      .ok { results := [], total := 0, valid_count := 0
          , processing_time_ms := 50 } := rfl

/-- C3: for every accepted `emails` array, `/batch` returns 200 with
`results` of the same length and order (the `i`-th result echoes the
`i`-th input and carries the same `valid` the `/validate` syntax test
would give that entry alone), `total` the input length, and
`valid_count` the number of results with `valid == true`. -/
theorem c3_batch_pointwise (xs : List JsValue) :
    batchEndpoint (some (.varr xs)) = .ok (batchResultOf xs) ∧
    (batchResultOf xs).results.length = xs.length ∧
    (∀ i : Nat, ((batchResultOf xs).results[i]?).map BatchItem.email = xs[i]?) ∧
    (∀ i : Nat, ((batchResultOf xs).results[i]?).map BatchItem.valid =
       (xs[i]?).map (fun e => (validationResultOf e).valid)) ∧
    (batchResultOf xs).total = xs.length ∧
    (batchResultOf xs).valid_count =
      (batchResultOf xs).results.countP (fun r => r.valid) := by
  refine ⟨rfl, by simp [batchResultOf], ?_, ?_, rfl, ?_⟩
  · intro i
    simp [batchResultOf, List.getElem?_map, Option.map_map]
    cases xs[i]? <;> simp [batchItemOf]
  · intro i
    simp [batchResultOf, List.getElem?_map, Option.map_map]
    cases xs[i]? <;> simp [batchItemOf, validationResultOf]
  · simp [batchResultOf, List.countP_eq_length_filter]

/-- C5: `/batch` responds 400 `VALIDATION_ERROR` exactly when the
`emails` field is missing or not an array; every array input yields
200 with a `BatchResult` in which each entry appears (marked, never
rejected). -/
theorem c5_batch_error_iff (v? : Option JsValue) (xs : List JsValue) :
    (batchEndpoint v? =
        .err 400 "VALIDATION_ERROR".data "Emails array is required".data ↔
      ∀ ys : List JsValue, v? ≠ some (.varr ys)) ∧
    batchEndpoint (some (.varr xs)) = .ok (batchResultOf xs) ∧
    (batchResultOf xs).results.length = xs.length := by
  refine ⟨?_, rfl, by simp [batchResultOf]⟩
  cases v? with
  | none => simp [batchEndpoint]
  | some v =>
    cases v with
    | vstr s =>
      simp only [batchEndpoint, truthy]
      constructor
      · intro _ ys hys
        simp at hys
      · intro _
        split <;> rfl
    | vnum n =>
      simp only [batchEndpoint, truthy]
      constructor
      · intro _ ys hys
        simp at hys
      · intro _
        split <;> rfl
    | vbool b =>
      simp only [batchEndpoint, truthy]
      constructor
      · intro _ ys hys
        simp at hys
      · intro _
        split <;> rfl
    | vnull =>
      simp only [batchEndpoint, truthy]
      constructor
      · intro _ ys hys
        simp at hys
      · intro _
        rfl
    | varr ys =>
      have hok : batchEndpoint (some (.varr ys)) = .ok (batchResultOf ys) := rfl
      rw [hok]
      constructor
      · intro h
        exact absurd h (by simp)
      · intro hall
        exact ((hall ys) rfl).elim

/-- C6: the error-handling middleware responds with the error's
declared status code when present and 500 otherwise; the body's error
kind is the error's name when available and `INTERNAL_SERVER_ERROR`
otherwise; and the stack field appears exactly in development mode —
hence only in non-production configuration, and is withheld outside
development mode. -/
theorem c6_error_handler (env : List Char) (e : JsError) :
    (errorHandler env e).status = (declaredStatus e).getD 500 ∧
    (errorHandler env e).error = (givenName e).getD "INTERNAL_SERVER_ERROR".data ∧
    ((errorHandler env e).stack.isSome = true ↔ env = "development".data) ∧
    ¬((errorHandler env e).stack.isSome = true ∧ env = "production".data) := by
  refine ⟨?_, ?_, ?_, ?_⟩
  · cases hsc : e.statusCode with
    | none =>
      cases hst : e.status with
      | none => simp [errorHandler, declaredStatus, truthyNum, jsOrNum, hsc, hst, Option.orElse]
      | some m =>
        by_cases hm : m = 0 <;>
          simp [errorHandler, declaredStatus, truthyNum, jsOrNum, hsc, hst, hm, Option.orElse]
    | some n =>
      by_cases hn : n = 0
      · cases hst : e.status with
        | none => simp [errorHandler, declaredStatus, truthyNum, jsOrNum, hsc, hst, hn, Option.orElse]
        | some m =>
          by_cases hm : m = 0 <;>
            simp [errorHandler, declaredStatus, truthyNum, jsOrNum, hsc, hst, hn, hm, Option.orElse]
      · simp [errorHandler, declaredStatus, truthyNum, jsOrNum, hsc, hn, Option.orElse]
  · cases hna : e.name with
    | none => simp [errorHandler, givenName, truthyStr, jsOrStr, hna]
    | some s =>
      by_cases hs : s.isEmpty <;>
        simp [errorHandler, givenName, truthyStr, jsOrStr, hna, hs]
  · by_cases he : env = "development".data <;> simp [errorHandler, he]
  · rintro ⟨hsome, hprod⟩
    rw [hprod] at hsome
    simp [errorHandler] at hsome

/-- C7 (counterexample): on `"a@tempmail.com@b"`, `isDisposable`
returns `true`, yet the substring after the (first) `@` is
`"tempmail.com@b"`, whose lowercasing is not in the four-entry list —
refuting the claim that `isDisposable` tests the substring after the
`@`. -/
theorem c7_counterexample :
    isDisposable "a@tempmail.com@b".data = true ∧
    splitFirst '@' "a@tempmail.com@b".data =
      some ("a".data, "tempmail.com@b".data) ∧
    disposableDomains.contains (jsToLower "tempmail.com@b".data) = false := by
  refine ⟨by decide, by decide, by decide⟩

/-- C7 (amended): `isDisposable` returns `true` exactly when the
input has an `@` and the segment between its first `@` and its second
`@` (or its end), lowercased, is a member of the fixed four-entry
list; in particular an input with no `@` is never reported
disposable. -/
theorem c7_amended (s : List Char) :
    isDisposable s = true ↔
      ∃ d : List Char, secondSegment s = some d ∧
        disposableDomains.contains (jsToLower d) = true := by
  unfold isDisposable
  rw [jsSplit_getElem_one]
  cases h : secondSegment s with
  | none => simp
  | some d => simp

/-- C8: evaluating the syntax test once per batch entry and reusing
the boolean produces exactly the `BatchResult` the source computes by
evaluating the test three times per entry. -/
theorem c8_single_evaluation (xs : List JsValue) :
    batchResultOnce xs = batchResultOf xs ∧
    ∀ v : JsValue, batchItemOnce v = batchItemOf v := by
  exact ⟨rfl, fun v => rfl⟩
